import Mathlib

/-!
# Mailpot job runner: shallow embedding and verification

This file embeds the core of the Mailpot multi-account throttled job runner
(`src/src/contexts/JobContext.tsx`, plus the derived elapsed-time query from
`src/src/pages/SingleImportPage.tsx`) into Lean and settles the claims of the
specification against it.

Modelling conventions:
* JavaScript millisecond timestamps (`Date.now()`) are modelled as `Int`.
  A real clock never returns `0`, so theorems that depend on JavaScript
  truthiness of a timestamp (`!job.pauseTime` is true for both `null` and
  `0`) carry an explicit `≠ 0` hypothesis.
* The job map `Record<string, Job>` is modelled as `String → Option Job`;
  the object-spread update `{ ...prev, [k]: v }` is a pointwise functional
  update and `delete` maps the key to `none`.
* The shared one-second interval callback is the function `tickMap`; the
  per-job body of the `Object.keys(...).forEach` loop is `tickJob`, which
  also reports the email address dispatched by this tick, if any (the
  argument `processQueueItem` captures synchronously before its first
  `await`).
* The asynchronous completion of `processQueueItem` (its trailing
  `setJobs` call) is the function `completeSubmission`.  The result id is
  computed from `job.currentIndex` *after* the `await`s; because the tick
  loop mutates the very object `processQueueItem` holds, that read sees the
  job's current cursor at completion time.  `completeSubmission` reads the
  cursor of the job currently in the map, which is exact whenever no other
  completion of the same job intervened between dispatch and completion
  (in particular for the single-submission runs analysed here).
-/

namespace Mailpot

/-- Outcome tag of one import result (`'pending' | 'success' | 'error'` in
`JobContext.tsx`; the code only ever stores `success` or `error`). -/
inductive Status where
  | pending : Status
  | success : Status
  | error : Status
deriving DecidableEq, Repr

/-- One per-address result record (`ImportResult` in `JobContext.tsx`). -/
structure ImportResult where
  id : Nat
  email : String
  status : Status
  details : String
deriving DecidableEq, Repr

/-- The state of a single import job (`Job` in `JobContext.tsx`). -/
structure Job where
  id : String
  name : String
  apiKey : String
  emailList : List String
  tagId : Option Int
  results : List ImportResult
  currentIndex : Nat
  isRunning : Bool
  isPaused : Bool
  delay : Nat
  countdown : Nat
  startTime : Option Int
  endTime : Option Int
  pauseTime : Option Int
  totalPausedTime : Int
deriving DecidableEq, Repr

/-- The job map owned by `JobProvider` (`Record<string, Job>`). -/
def JobMap : Type := String → Option Job

/-- The empty job map (initial `useState({})`). -/
def emptyMap : JobMap := fun _ => none

/-- Object-spread update `{ ...m, [k]: v }`. -/
def updateMap (m : JobMap) (k : String) (v : Job) : JobMap :=
  fun a => if a = k then some v else m a

/-- JavaScript truthiness of a nullable millisecond timestamp:
`null` and `0` are falsy, every other number is truthy. -/
def jsTruthy : Option Int → Bool
  | none => false
  | some t => t != 0

/-- The delimiter class of the split regex `/[\n,;]+/`. -/
def isDelim (c : Char) : Bool :=
  c == '\n' || c == ',' || c == ';'

/-- JavaScript `String.prototype.trim` on a character list: strip leading
and trailing whitespace. -/
def trimChars (l : List Char) : List Char :=
  ((l.dropWhile Char.isWhitespace).reverse.dropWhile Char.isWhitespace).reverse

/-- Split on every single delimiter character (the spec's words: "split on
newlines/commas/semicolons"); empty pieces between adjacent delimiters are
kept here and dropped by the later empty filter. -/
def splitSingle (p : Char → Bool) : List Char → List (List Char)
  | [] => [[]]
  | c :: cs =>
    if p c then [] :: splitSingle p cs
    else
      match splitSingle p cs with
      | [] => [[c]]
      | t :: ts => (c :: t) :: ts

/-- Worker for `splitRuns`: `inRun` records whether the previous character
was a delimiter, so that an unbroken run of delimiters produces a single
break. -/
def splitRunsAux (p : Char → Bool) : Bool → List Char → List (List Char)
  | _, [] => [[]]
  | inRun, c :: cs =>
    if p c then
      if inRun then splitRunsAux p true cs
      else [] :: splitRunsAux p true cs
    else
      match splitRunsAux p false cs with
      | [] => [[c]]
      | t :: ts => (c :: t) :: ts

/-- Split on maximal *runs* of delimiter characters, as the regex
`/[\n,;]+/` does: a run of adjacent delimiters produces a single break. -/
def splitRuns (p : Char → Bool) (l : List Char) : List (List Char) :=
  splitRunsAux p false l

/-- Trim every piece and drop the pieces that trim to empty (the
`.map(e => e.trim()).filter(Boolean)` pipeline, moved to character lists). -/
def cleanPieces (xs : List (List Char)) : List (List Char) :=
  (xs.map trimChars).filter (fun l => l ≠ [])

/-- The queue produced by `startJob` from the raw textarea text:
`emails.split(/[\n,;]+/).map(e => e.trim()).filter(Boolean)`. -/
def emailListOf (s : String) : List String :=
  (cleanPieces (splitRuns isDelim s.toList)).map (fun l => String.mk l)

/-- Modelled from the spec's words alone, for comparison with `emailListOf`:
"split on newlines/commas/semicolons, trim, drop empties". -/
def specQueueOf (s : String) : List String :=
  (cleanPieces (splitSingle isDelim s.toList)).map (fun l => String.mk l)

/-- `tagId && tagId !== "no-tag" ? parseInt(tagId) : undefined`.
JavaScript `parseInt` that yields `NaN`, and a prefix-numeric parse, are
modelled by `String.toInt?` (no claim depends on the numeric value). -/
def parseTagId : Option String → Option Int
  | none => none
  | some s => if s ≠ "" ∧ s ≠ "no-tag" then s.toInt? else none

/-- The fresh job built by `startJob`. -/
def freshJob (accountId name apiKey : String) (emailList : List String)
    (delay : Nat) (tagId : Option Int) (now : Int) : Job :=
  { id := accountId
    name := name
    apiKey := apiKey
    emailList := emailList
    tagId := tagId
    results := []
    currentIndex := 0
    isRunning := true
    isPaused := false
    delay := delay
    countdown := 0
    startTime := some now
    endTime := none
    pauseTime := none
    totalPausedTime := 0 }

/-- `startJob`: parse the raw text; if the parsed list is empty return the
map unchanged (`if (emailList.length === 0) return;`), otherwise overwrite
the account's entry with a fresh job. -/
def startJob (accountId name apiKey emails : String) (delay : Nat)
    (tagId : Option String) (now : Int) (m : JobMap) : JobMap :=
  let emailList := emailListOf emails
  if emailList = [] then m
  else updateMap m accountId
    (freshJob accountId name apiKey emailList delay (parseTagId tagId) now)

/-- `pauseJob`: no-op when the job is missing or already paused, else set
`isPaused` and record `pauseTime = Date.now()`. -/
def pauseJob (accountId : String) (now : Int) (m : JobMap) : JobMap :=
  match m accountId with
  | none => m
  | some j =>
    if j.isPaused then m
    else updateMap m accountId { j with isPaused := true, pauseTime := some now }

/-- `resumeJob`: no-op when the job is missing, not paused, or `pauseTime`
is falsy; else fold `now - pauseTime` into `totalPausedTime` and clear the
pause fields. -/
def resumeJob (accountId : String) (now : Int) (m : JobMap) : JobMap :=
  match m accountId with
  | none => m
  | some j =>
    if j.isPaused && jsTruthy j.pauseTime then
      updateMap m accountId
        { j with isPaused := false
                 pauseTime := none
                 totalPausedTime := j.totalPausedTime + (now - j.pauseTime.getD 0) }
    else m

/-- `stopJob`: no-op when the job is missing; else fold an open pause
interval (paused with truthy `pauseTime`) into `totalPausedTime`, then mark
the job stopped. -/
def stopJob (accountId : String) (now : Int) (m : JobMap) : JobMap :=
  match m accountId with
  | none => m
  | some j =>
    let totalPausedTime :=
      if j.isPaused && jsTruthy j.pauseTime then
        j.totalPausedTime + (now - j.pauseTime.getD 0)
      else j.totalPausedTime
    updateMap m accountId
      { j with isRunning := false
               isPaused := false
               endTime := some now
               pauseTime := none
               totalPausedTime := totalPausedTime }

/-- `clearJobForAccount`: unconditionally delete the entry. -/
def clearJobForAccount (accountId : String) (m : JobMap) : JobMap :=
  fun a => if a = accountId then none else m a

/-- One tick acting on a single job (the body of the interval's
`forEach`).  The second component is the email address dispatched by this
tick, if any: `processQueueItem` reads `job.emailList[job.currentIndex]`
synchronously before the cursor is incremented. -/
def tickJob (now : Int) (j : Job) : Job × Option String :=
  if j.isRunning && !j.isPaused then
    if j.countdown > 0 then
      ({ j with countdown := j.countdown - 1 }, none)
    else
      if j.currentIndex < j.emailList.length then
        ({ j with currentIndex := j.currentIndex + 1, countdown := j.delay },
         some (j.emailList.getD j.currentIndex ""))
      else
        ({ j with isRunning := false, endTime := some now }, none)
  else (j, none)

/-- One firing of the shared interval: every job in the map is advanced by
`tickJob`.  (The code's `jobsChanged` flag only decides whether the same
contents are returned as the old or the new object.) -/
def tickMap (now : Int) (m : JobMap) : JobMap :=
  fun a => (m a).map (fun j => (tickJob now j).1)

/-- Iterate the tick on one job, counting dispatched submissions. -/
def runTicks (now : Int) : Nat → Job → Job × Nat
  | 0, j => (j, 0)
  | n + 1, j =>
    let p := tickJob now j
    let r := runTicks now n p.1
    (r.1, (if p.2.isSome then 1 else 0) + r.2)

/-- The trailing `setJobs` of `processQueueItem`: prepend the new result to
the job's result list.  The result id is `job.currentIndex + 1` read *after*
the `await`s, i.e. from the job as it stands at completion time. -/
def completeSubmission (accountId email : String) (status : Status)
    (details : String) (m : JobMap) : JobMap :=
  match m accountId with
  | none => m
  | some j =>
    updateMap m accountId
      { j with results :=
          { id := j.currentIndex + 1
            email := email
            status := status
            details := details } :: j.results }

/-- JavaScript `a || b` on nullable numbers: `a` when truthy, else `b`. -/
def jsOrOpt (a b : Option Int) : Option Int :=
  match a with
  | none => b
  | some x => if x = 0 then b else some x

/-- `calculateElapsedTime` from `SingleImportPage.tsx`:
returns elapsed active seconds (exact rational division by 1000). -/
def calculateElapsedTime (job : Job) (now : Int) : ℚ :=
  match job.startTime with
  | none => 0
  | some s =>
    if s = 0 then 0
    else
      match jsOrOpt job.endTime (if job.isPaused then job.pauseTime else some now) with
      | none => 0
      | some et =>
        if et = 0 then 0
        else max 0 (((et - s - job.totalPausedTime : Int) : ℚ) / 1000)

/-- Job maps reachable from the empty map by the control operations and the
tick. -/
inductive Reachable : JobMap → Prop where
  | empty : Reachable emptyMap
  | start (accountId name apiKey emails : String) (delay : Nat)
      (tagId : Option String) (now : Int) {m : JobMap} :
      Reachable m → Reachable (startJob accountId name apiKey emails delay tagId now m)
  | pause (accountId : String) (now : Int) {m : JobMap} :
      Reachable m → Reachable (pauseJob accountId now m)
  | resume (accountId : String) (now : Int) {m : JobMap} :
      Reachable m → Reachable (resumeJob accountId now m)
  | stop (accountId : String) (now : Int) {m : JobMap} :
      Reachable m → Reachable (stopJob accountId now m)
  | clear (accountId : String) {m : JobMap} :
      Reachable m → Reachable (clearJobForAccount accountId m)
  | tick (now : Int) {m : JobMap} :
      Reachable m → Reachable (tickMap now m)

/-! ## Helper lemmas about the queue parser -/

theorem cleanPieces_nil_cons (xs : List (List Char)) :
    cleanPieces ([] :: xs) = cleanPieces xs := by
  simp [cleanPieces, trimChars]

theorem cleanPieces_cons (x : List Char) (xs : List (List Char)) :
    cleanPieces (x :: xs) =
      if trimChars x = [] then cleanPieces xs else trimChars x :: cleanPieces xs := by
  simp only [cleanPieces, List.map_cons, List.filter_cons]
  by_cases h : trimChars x = []
  · simp [h]
  · simp [h]

theorem splitRunsAux_true_false (p : Char → Bool) (cs : List Char) :
    cleanPieces (splitRunsAux p true cs) = cleanPieces (splitRunsAux p false cs) := by
  cases cs with
  | nil => rfl
  | cons c cs =>
    simp only [splitRunsAux]
    cases hpc : p c
    · simp
    · simp [cleanPieces_nil_cons]

theorem splits_agree (p : Char → Bool) (l : List Char) :
    ∃ h t1 t2, splitSingle p l = h :: t1 ∧ splitRunsAux p false l = h :: t2 ∧
      cleanPieces t1 = cleanPieces t2 := by
  induction l with
  | nil => exact ⟨[], [], [], rfl, rfl, rfl⟩
  | cons c cs ih =>
    obtain ⟨h, t1, t2, hs, hr, hc⟩ := ih
    cases hpc : p c
    · refine ⟨c :: h, t1, t2, ?_, ?_, hc⟩
      · simp [splitSingle, hpc, hs]
      · simp [splitRunsAux, hpc, hr]
    · refine ⟨[], splitSingle p cs, splitRunsAux p true cs, ?_, ?_, ?_⟩
      · simp [splitSingle, hpc]
      · simp [splitRunsAux, hpc]
      · rw [splitRunsAux_true_false, hs, hr, cleanPieces_cons, cleanPieces_cons, hc]

theorem clean_split_eq (p : Char → Bool) (l : List Char) :
    cleanPieces (splitSingle p l) = cleanPieces (splitRuns p l) := by
  obtain ⟨h, t1, t2, hs, hr, hc⟩ := splits_agree p l
  rw [splitRuns, hs, hr, cleanPieces_cons, cleanPieces_cons, hc]

/-! ## Claim theorems -/

/-- C5: the queue is produced by splitting the raw text on newlines, commas
and semicolons, trimming each piece and dropping empty pieces (the code's
run-collapsing regex split agrees with that description after the empty
filter); and whenever the resulting queue is empty, `startJob` is a no-op
on the job map — for example on the input `"  ,, \n"`. -/
theorem c5_parse_and_empty_noop :
    (∀ s : String, emailListOf s = specQueueOf s)
    ∧ (∀ (accountId name apiKey emails : String) (delay : Nat)
        (tagId : Option String) (now : Int) (m : JobMap),
        emailListOf emails = [] →
        startJob accountId name apiKey emails delay tagId now m = m)
    ∧ emailListOf "  ,, \n" = [] := by
  refine ⟨?_, ?_, by decide⟩
  · intro s
    rw [emailListOf, specQueueOf, clean_split_eq]
  · intro accountId name apiKey emails delay tagId now m h
    simp [startJob, h]

/-- Witness for C5: starting with the whitespace-and-delimiter-only input
`"  ,, \n"` creates no job for the account. -/
theorem c5_parse_and_empty_noop_witness :
    startJob "A" "Acme" "key" "  ,, \n" 0 none 5 emptyMap "A" = none := by
  rw [c5_parse_and_empty_noop.2.1 "A" "Acme" "key" "  ,, \n" 0 none 5 emptyMap (by decide)]
  rfl

/-- C6: for a non-empty parsed queue, `startJob` replaces the account's
entry with a fresh job: cursor 0, running, not paused, countdown 0, no
results (so nothing of a previous job survives), `startedAt` set,
`finishedAt` and `pausedAt` null, zero accumulated pause time; the map then
holds exactly that job under the account identifier. -/
theorem c6_start_replaces_with_fresh_job
    (accountId name apiKey emails : String) (delay : Nat)
    (tagId : Option String) (now : Int) (m : JobMap)
    (h : emailListOf emails ≠ []) :
    startJob accountId name apiKey emails delay tagId now m accountId =
      some (freshJob accountId name apiKey (emailListOf emails) delay
        (parseTagId tagId) now)
    ∧ (freshJob accountId name apiKey (emailListOf emails) delay
        (parseTagId tagId) now).currentIndex = 0
    ∧ (freshJob accountId name apiKey (emailListOf emails) delay
        (parseTagId tagId) now).isRunning = true
    ∧ (freshJob accountId name apiKey (emailListOf emails) delay
        (parseTagId tagId) now).isPaused = false
    ∧ (freshJob accountId name apiKey (emailListOf emails) delay
        (parseTagId tagId) now).countdown = 0
    ∧ (freshJob accountId name apiKey (emailListOf emails) delay
        (parseTagId tagId) now).results = []
    ∧ (freshJob accountId name apiKey (emailListOf emails) delay
        (parseTagId tagId) now).startTime = some now
    ∧ (freshJob accountId name apiKey (emailListOf emails) delay
        (parseTagId tagId) now).endTime = none
    ∧ (freshJob accountId name apiKey (emailListOf emails) delay
        (parseTagId tagId) now).pauseTime = none
    ∧ (freshJob accountId name apiKey (emailListOf emails) delay
        (parseTagId tagId) now).totalPausedTime = 0 := by
  refine ⟨?_, rfl, rfl, rfl, rfl, rfl, rfl, rfl, rfl, rfl⟩
  simp [startJob, updateMap, h]

/-- Witness for C6: starting over an existing finished job with results
replaces it by a fresh result-free running job. -/
theorem c6_start_replaces_with_fresh_job_witness :
    (startJob "A" "Acme" "key" "a@x.com" 3 none 7 emptyMap "A").map
      (fun j => (j.currentIndex, j.isRunning, j.isPaused, j.countdown,
        j.results, j.startTime, j.endTime)) =
      some (0, true, false, 0, ([] : List ImportResult), some 7, none) := by
  have h := (c6_start_replaces_with_fresh_job "A" "Acme" "key" "a@x.com" 3
    none 7 emptyMap (by decide)).1
  rw [h]
  rfl

/-- C10: every control operation addressed to account `b` leaves the entry
of any other account `a` in the job map unchanged. -/
theorem c10_other_accounts_unchanged (a b : String) (hab : a ≠ b)
    (m : JobMap) (name apiKey emails : String) (delay : Nat)
    (tagId : Option String) (now : Int) :
    startJob b name apiKey emails delay tagId now m a = m a
    ∧ pauseJob b now m a = m a
    ∧ resumeJob b now m a = m a
    ∧ stopJob b now m a = m a
    ∧ clearJobForAccount b m a = m a := by
  refine ⟨?_, ?_, ?_, ?_, ?_⟩
  · rw [startJob]
    split
    · rfl
    · simp [updateMap, hab]
  · cases hm : m b with
    | none => simp [pauseJob, hm]
    | some j =>
      simp only [pauseJob, hm]
      split
      · rfl
      · simp [updateMap, hab]
  · cases hm : m b with
    | none => simp [resumeJob, hm]
    | some j =>
      simp only [resumeJob, hm]
      split
      · simp [updateMap, hab]
      · rfl
  · rw [stopJob]
    cases hm : m b
    · rfl
    · simp [updateMap, hab]
  · simp [clearJobForAccount, hab]

/-- Witness for C10: operations on account `"B"` do not disturb account
`"A"`. -/
theorem c10_other_accounts_unchanged_witness :
    startJob "B" "Acme" "key" "a@x.com" 0 none 5 emptyMap "A" = emptyMap "A"
    ∧ pauseJob "B" 5 emptyMap "A" = emptyMap "A"
    ∧ resumeJob "B" 5 emptyMap "A" = emptyMap "A"
    ∧ stopJob "B" 5 emptyMap "A" = emptyMap "A"
    ∧ clearJobForAccount "B" emptyMap "A" = emptyMap "A" :=
  c10_other_accounts_unchanged "A" "B" (by decide) emptyMap "Acme" "key"
    "a@x.com" 0 none 5

/-- C7: `resumeJob` is a no-op when the job is missing, not paused, or has
no recorded `pausedAt`; otherwise it adds exactly `now - pausedAt` to
`accumulatedPauseDuration`, clears `paused` and `pausedAt`, changes no
other field of the job, and touches no other map entry.  (`pausedAt = 0`
would also be a no-op, by JavaScript falsiness; a real `Date.now()`
timestamp is nonzero, hence the `pt ≠ 0` hypothesis.) -/
theorem c7_resume_folds_pause_duration (accountId : String) (now : Int)
    (m : JobMap) :
    (m accountId = none → resumeJob accountId now m = m)
    ∧ (∀ j, m accountId = some j → j.isPaused = false →
        resumeJob accountId now m = m)
    ∧ (∀ j, m accountId = some j → j.pauseTime = none →
        resumeJob accountId now m = m)
    ∧ (∀ j pt, m accountId = some j → j.isPaused = true →
        j.pauseTime = some pt → pt ≠ 0 →
        resumeJob accountId now m accountId =
          some { j with isPaused := false
                        pauseTime := none
                        totalPausedTime := j.totalPausedTime + (now - pt) }
        ∧ ∀ b, b ≠ accountId → resumeJob accountId now m b = m b) := by
  refine ⟨?_, ?_, ?_, ?_⟩
  · intro h
    simp [resumeJob, h]
  · intro j hj hp
    simp [resumeJob, hj, hp]
  · intro j hj hpt
    simp [resumeJob, hj, hpt, jsTruthy]
  · intro j pt hj hp hpt hpt0
    refine ⟨?_, ?_⟩
    · simp [resumeJob, hj, hp, hpt, jsTruthy, hpt0, updateMap]
    · intro b hb
      simp [resumeJob, hj, hp, hpt, jsTruthy, hpt0, updateMap, hb]

/-- Witness for C7: resuming a job paused at time 40 at time 100 adds
exactly 60 to `totalPausedTime` and clears the pause fields. -/
theorem c7_resume_folds_pause_duration_witness :
    resumeJob "A" 100
      (pauseJob "A" 40 (startJob "A" "Acme" "key" "a@x.com" 2 none 10 emptyMap))
      "A" =
      some { id := "A", name := "Acme", apiKey := "key",
             emailList := ["a@x.com"], tagId := none, results := [],
             currentIndex := 0, isRunning := true, isPaused := false,
             delay := 2, countdown := 0, startTime := some 10,
             endTime := none, pauseTime := none, totalPausedTime := 60 } := by
  have h := (c7_resume_folds_pause_duration "A" 100
    (pauseJob "A" 40 (startJob "A" "Acme" "key" "a@x.com" 2 none 10 emptyMap))).2.2.2
    { id := "A", name := "Acme", apiKey := "key",
      emailList := ["a@x.com"], tagId := none, results := [],
      currentIndex := 0, isRunning := true, isPaused := true,
      delay := 2, countdown := 0, startTime := some 10,
      endTime := none, pauseTime := some 40, totalPausedTime := 0 }
    40 (by decide) rfl rfl (by decide)
  rw [h.1]
  rfl

/-- C8: `stopJob` on an existing job folds an open pause interval into
`accumulatedPauseDuration`, then sets `running := false`,
`paused := false`, `pausedAt := null`, `finishedAt := now`, preserving the
cursor, queue and results; with no job it is a no-op. -/
theorem c8_stop_preserves_cursor_and_results (accountId : String)
    (now : Int) (m : JobMap) :
    (m accountId = none → stopJob accountId now m = m)
    ∧ (∀ j, m accountId = some j →
        ∃ j', stopJob accountId now m accountId = some j'
          ∧ j'.isRunning = false
          ∧ j'.isPaused = false
          ∧ j'.pauseTime = none
          ∧ j'.endTime = some now
          ∧ j'.currentIndex = j.currentIndex
          ∧ j'.emailList = j.emailList
          ∧ j'.results = j.results
          ∧ (∀ pt, j.isPaused = true → j.pauseTime = some pt → pt ≠ 0 →
              j'.totalPausedTime = j.totalPausedTime + (now - pt))
          ∧ (j.isPaused = false ∨ j.pauseTime = none →
              j'.totalPausedTime = j.totalPausedTime)) := by
  constructor
  · intro h
    simp [stopJob, h]
  · intro j hj
    refine ⟨{ j with isRunning := false
                     isPaused := false
                     endTime := some now
                     pauseTime := none
                     totalPausedTime :=
                       if j.isPaused && jsTruthy j.pauseTime then
                         j.totalPausedTime + (now - j.pauseTime.getD 0)
                       else j.totalPausedTime },
      ?_, rfl, rfl, rfl, rfl, rfl, rfl, rfl, ?_, ?_⟩
    · simp [stopJob, hj, updateMap]
    · intro pt hp hpt hpt0
      simp [hp, hpt, jsTruthy, hpt0]
    · intro h
      rcases h with hp | hpt
      · simp [hp]
      · simp [hpt, jsTruthy]

/-- Witness for C8: stopping a paused mid-queue job at time 100 folds the
open pause interval (paused at 40) and preserves cursor and results. -/
theorem c8_stop_preserves_cursor_and_results_witness :
    (stopJob "A" 100
      (pauseJob "A" 40 (startJob "A" "Acme" "key" "a@x.com" 2 none 10 emptyMap))
      "A").map
        (fun j => (j.isRunning, j.isPaused, j.pauseTime, j.endTime,
          j.currentIndex, j.emailList, j.totalPausedTime)) =
      some (false, false, none, some 100, 0, ["a@x.com"], 60) := by
  have h := (c8_stop_preserves_cursor_and_results "A" 100
    (pauseJob "A" 40 (startJob "A" "Acme" "key" "a@x.com" 2 none 10 emptyMap))).2
    { id := "A", name := "Acme", apiKey := "key",
      emailList := ["a@x.com"], tagId := none, results := [],
      currentIndex := 0, isRunning := true, isPaused := true,
      delay := 2, countdown := 0, startTime := some 10,
      endTime := none, pauseTime := some 40, totalPausedTime := 0 }
    (by decide)
  obtain ⟨j', hj', hrun, hpau, hpt, hend, hci, hel, hres, hfold, hnof⟩ := h
  rw [hj']
  simp only [Option.map_some']
  rw [hrun, hpau, hpt, hend, hci, hel, hfold 40 rfl rfl (by decide)]
  rfl

/-- C9: for a job with a (nonzero) `startedAt`, `calculateElapsedTime`
equals `(endReference - startedAt - accumulatedPauseDuration) / 1000`
clamped to ≥ 0, where `endReference` is `finishedAt` when set, else
`pausedAt` when the job is paused, else the current time; without
`startedAt` it is 0.  (Nonzero-timestamp hypotheses reflect JavaScript
falsiness; `Date.now()` is never 0.) -/
theorem c9_elapsed_active_seconds (j : Job) (now : Int) :
    (j.startTime = none → calculateElapsedTime j now = 0)
    ∧ (∀ s, j.startTime = some s → s ≠ 0 →
        (∀ f, j.endTime = some f → f ≠ 0 →
          calculateElapsedTime j now =
            max 0 (((f - s - j.totalPausedTime : Int) : ℚ) / 1000))
        ∧ (j.endTime = none → j.isPaused = true →
            ∀ pt, j.pauseTime = some pt → pt ≠ 0 →
          calculateElapsedTime j now =
            max 0 (((pt - s - j.totalPausedTime : Int) : ℚ) / 1000))
        ∧ (j.endTime = none → j.isPaused = false → now ≠ 0 →
          calculateElapsedTime j now =
            max 0 (((now - s - j.totalPausedTime : Int) : ℚ) / 1000))) := by
  constructor
  · intro h
    simp only [calculateElapsedTime]
    rw [h]
  · intro s hs hs0
    refine ⟨?_, ?_, ?_⟩
    · intro f hf hf0
      simp [calculateElapsedTime, hs, hs0, jsOrOpt, hf, hf0]
    · intro hend hp pt hpt hpt0
      simp [calculateElapsedTime, hs, hs0, jsOrOpt, hend, hp, hpt, hpt0]
    · intro hend hp hnow
      simp [calculateElapsedTime, hs, hs0, jsOrOpt, hend, hp, hnow]

/-- Witness for C9: a job started at 100 ms, finished at 5100 ms, with
1000 ms of accumulated pause, shows 4 elapsed active seconds. -/
theorem c9_elapsed_active_seconds_witness :
    calculateElapsedTime
      { id := "A", name := "Acme", apiKey := "key",
        emailList := ["a@x.com"], tagId := none, results := [],
        currentIndex := 1, isRunning := false, isPaused := false,
        delay := 0, countdown := 0, startTime := some 100,
        endTime := some 5100, pauseTime := none, totalPausedTime := 1000 }
      6000 = 4 := by
  have h := ((c9_elapsed_active_seconds
    { id := "A", name := "Acme", apiKey := "key",
      emailList := ["a@x.com"], tagId := none, results := [],
      currentIndex := 1, isRunning := false, isPaused := false,
      delay := 0, countdown := 0, startTime := some 100,
      endTime := some 5100, pauseTime := none, totalPausedTime := 1000 }
    6000).2 100 rfl (by decide)).1 5100 rfl (by decide)
  rw [h]
  norm_num

/-- C1: one tick leaves jobs with `running = false` or `paused = true`
unchanged and dispatches nothing for them; for a running, unpaused job it
only decrements a positive countdown, and otherwise (countdown 0, cursor
in range) dispatches exactly one submission for `queue[cursor]`, increments
the cursor and resets the countdown to `delaySeconds`, changing nothing
else. -/
theorem c1_tick_semantics (now : Int) (m : JobMap) (a : String) (j : Job)
    (h : m a = some j) :
    ((j.isRunning = false ∨ j.isPaused = true) →
      tickMap now m a = some j ∧ (tickJob now j).2 = none)
    ∧ (j.isRunning = true → j.isPaused = false → 0 < j.countdown →
      tickMap now m a = some { j with countdown := j.countdown - 1 }
      ∧ (tickJob now j).2 = none)
    ∧ (j.isRunning = true → j.isPaused = false → j.countdown = 0 →
        j.currentIndex < j.emailList.length →
      tickMap now m a =
        some { j with currentIndex := j.currentIndex + 1, countdown := j.delay }
      ∧ (tickJob now j).2 = j.emailList[j.currentIndex]?) := by
  refine ⟨?_, ?_, ?_⟩
  · intro hip
    rcases hip with hr | hp
    · constructor
      · simp [tickMap, h, tickJob, hr]
      · simp [tickJob, hr]
    · constructor
      · simp [tickMap, h, tickJob, hp]
      · simp [tickJob, hp]
  · intro hr hp hcd
    constructor
    · simp [tickMap, h, tickJob, hr, hp, hcd]
    · simp [tickJob, hr, hp, hcd]
  · intro hr hp hcd hcur
    have hcd' : ¬ 0 < j.countdown := by omega
    constructor
    · simp [tickMap, h, tickJob, hr, hp, hcd', hcur]
    · simp [tickJob, hr, hp, hcd', hcur, List.getD_eq_getElem?_getD,
        List.getElem?_eq_getElem hcur]

/-- Witness for C1: a fresh two-address job with delay 1 dispatches its
first address on the first tick, moving the cursor to 1 and the countdown
to 1. -/
theorem c1_tick_semantics_witness :
    tickMap 11 (startJob "A" "Acme" "key" "a@x.com,b@x.com" 1 none 10 emptyMap)
      "A" =
      some { id := "A", name := "Acme", apiKey := "key",
             emailList := ["a@x.com", "b@x.com"], tagId := none, results := [],
             currentIndex := 1, isRunning := true, isPaused := false,
             delay := 1, countdown := 1, startTime := some 10,
             endTime := none, pauseTime := none, totalPausedTime := 0 }
    ∧ (tickJob 11 (freshJob "A" "Acme" "key" ["a@x.com", "b@x.com"] 1 none
        10)).2 = some "a@x.com" := by
  have h := (c1_tick_semantics 11
    (startJob "A" "Acme" "key" "a@x.com,b@x.com" 1 none 10 emptyMap) "A"
    (freshJob "A" "Acme" "key" ["a@x.com", "b@x.com"] 1 none 10)
    (by decide)).2.2 rfl rfl rfl (by decide)
  constructor
  · rw [h.1]
    rfl
  · rw [h.2]
    rfl

/-- C2 (code bug): the single dispatched submission of a one-address job
completes with result id 2, not the 1-indexed cursor position at dispatch
time (which is 1): `processQueueItem` reads `job.currentIndex` only after
its `await`s, by which time the tick has already incremented the cursor on
the very object it holds.  The first conjunct shows the tick dispatched
`queue[0]`; the second shows the recorded sequence number is 2. -/
theorem c2_sequence_number_read_after_increment :
    (startJob "A" "Acme" "key" "a@x.com" 0 none 100 emptyMap "A").map
      (fun j => (tickJob 101 j).2) = some (some "a@x.com")
    ∧ (completeSubmission "A" "a@x.com" Status.success "ok"
        (tickMap 101 (startJob "A" "Acme" "key" "a@x.com" 0 none 100 emptyMap))
        "A").map (fun j => j.results.map (fun r => (r.id, r.email))) =
      some [(2, "a@x.com")] :=
  ⟨by decide, by decide⟩

/-- A job that is running and unpaused has no recorded pause timestamp:
the auxiliary invariant behind the amended C4. -/
def RunningUnpausedClear (m : JobMap) : Prop :=
  ∀ a j, m a = some j → j.isRunning = true → j.isPaused = false →
    j.pauseTime = none

theorem ruc_empty : RunningUnpausedClear emptyMap := by
  intro a j h
  simp [emptyMap] at h

theorem ruc_update (m : JobMap) (k : String) (v : Job)
    (hm : RunningUnpausedClear m)
    (hv : v.isRunning = true → v.isPaused = false → v.pauseTime = none) :
    RunningUnpausedClear (updateMap m k v) := by
  intro a j h hr hp
  rw [updateMap] at h
  by_cases hak : a = k
  · rw [if_pos hak] at h
    cases h
    exact hv hr hp
  · rw [if_neg hak] at h
    exact hm a j h hr hp

theorem ruc_start (accountId name apiKey emails : String) (delay : Nat)
    (tagId : Option String) (now : Int) (m : JobMap)
    (hm : RunningUnpausedClear m) :
    RunningUnpausedClear (startJob accountId name apiKey emails delay tagId now m) := by
  rw [startJob]
  split
  · exact hm
  · exact ruc_update m accountId _ hm (fun _ _ => rfl)

theorem ruc_pause (accountId : String) (now : Int) (m : JobMap)
    (hm : RunningUnpausedClear m) :
    RunningUnpausedClear (pauseJob accountId now m) := by
  rw [pauseJob]
  split
  · exact hm
  · split
    · exact hm
    · refine ruc_update m accountId _ hm ?_
      intro _ hp
      simp at hp

theorem ruc_resume (accountId : String) (now : Int) (m : JobMap)
    (hm : RunningUnpausedClear m) :
    RunningUnpausedClear (resumeJob accountId now m) := by
  rw [resumeJob]
  split
  · exact hm
  · split
    · exact ruc_update m accountId _ hm (fun _ _ => rfl)
    · exact hm

theorem ruc_stop (accountId : String) (now : Int) (m : JobMap)
    (hm : RunningUnpausedClear m) :
    RunningUnpausedClear (stopJob accountId now m) := by
  rw [stopJob]
  split
  · exact hm
  · refine ruc_update m accountId _ hm ?_
    intro hr
    simp at hr

theorem ruc_clear (accountId : String) (m : JobMap)
    (hm : RunningUnpausedClear m) :
    RunningUnpausedClear (clearJobForAccount accountId m) := by
  intro a j h
  rw [clearJobForAccount] at h
  by_cases hak : a = accountId
  · rw [if_pos hak] at h
    cases h
  · rw [if_neg hak] at h
    exact hm a j h

theorem tickJob_pauseTime (now : Int) (j : Job) :
    ((tickJob now j).1).pauseTime = j.pauseTime := by
  rw [tickJob]
  split
  · split
    · rfl
    · split
      · rfl
      · rfl
  · rfl

theorem tickJob_isPaused (now : Int) (j : Job) :
    ((tickJob now j).1).isPaused = j.isPaused := by
  rw [tickJob]
  split
  · split
    · rfl
    · split
      · rfl
      · rfl
  · rfl

theorem tickJob_isRunning_of_inactive (now : Int) (j : Job)
    (h : ¬ (j.isRunning && !j.isPaused) = true) : (tickJob now j).1 = j := by
  rw [tickJob, if_neg h]

theorem ruc_tick (now : Int) (m : JobMap) (hm : RunningUnpausedClear m) :
    RunningUnpausedClear (tickMap now m) := by
  intro a j h hr hp
  rw [tickMap] at h
  rcases Option.map_eq_some'.mp h with ⟨j0, hj0, hj⟩
  by_cases hact : (j0.isRunning && !j0.isPaused) = true
  · have hact' := hact
    simp only [Bool.and_eq_true, Bool.not_eq_true'] at hact'
    rw [← hj, tickJob_pauseTime]
    exact hm a j0 hj0 hact'.1 hact'.2
  · rw [tickJob_isRunning_of_inactive now j0 hact] at hj
    subst hj
    exact hm a j0 hj0 hr hp

theorem reachable_ruc {m : JobMap} (hm : Reachable m) :
    RunningUnpausedClear m := by
  induction hm with
  | empty => exact ruc_empty
  | start accountId name apiKey emails delay tagId now _ ih =>
    exact ruc_start accountId name apiKey emails delay tagId now _ ih
  | pause accountId now _ ih => exact ruc_pause accountId now _ ih
  | resume accountId now _ ih => exact ruc_resume accountId now _ ih
  | stop accountId now _ ih => exact ruc_stop accountId now _ ih
  | clear accountId _ ih => exact ruc_clear accountId _ ih
  | tick now _ ih => exact ruc_tick now _ ih

/-- Counterexample to C4 as stated: `pauseJob` never checks `isRunning`,
so pausing a job that was started and then stopped yields a reachable map
whose job has `paused = true` and `running = false`. -/
theorem c4_paused_without_running_counterexample :
    (pauseJob "A" 15
      (stopJob "A" 10 (startJob "A" "Acme" "key" "a@x.com" 0 none 5 emptyMap))
      "A").map (fun j => (j.isPaused, j.isRunning)) = some (true, false) := by
  decide

/-- C4 (amended): in every reachable job map, a running unpaused job has no
recorded `pausedAt` (but a job with `paused = true` may have
`running = false`, since `pauseJob` does not check `running`); both
`stopJob` and the tick-driven finish transition leave the affected job with
`paused = false` and `pausedAt = null`. -/
theorem c4_amended_stop_and_finish_clear_pause (m : JobMap)
    (hm : Reachable m) :
    (∀ a j, m a = some j → j.isRunning = true → j.isPaused = false →
      j.pauseTime = none)
    ∧ (∀ accountId now j', stopJob accountId now m accountId = some j' →
        j'.isPaused = false ∧ j'.pauseTime = none)
    ∧ (∀ now a j, m a = some j → j.isRunning = true → j.isPaused = false →
        j.countdown = 0 → j.currentIndex = j.emailList.length →
        ∃ j', tickMap now m a = some j' ∧ j'.isRunning = false
          ∧ j'.endTime = some now ∧ j'.isPaused = false
          ∧ j'.pauseTime = none) := by
  have hruc := reachable_ruc hm
  refine ⟨hruc, ?_, ?_⟩
  · intro accountId now j' h
    cases hj : m accountId with
    | none =>
      rw [stopJob, hj] at h
      simp [hj] at h
    | some j =>
      simp only [stopJob, hj] at h
      simp [updateMap] at h
      subst h
      exact ⟨rfl, rfl⟩
  · intro now a j hj hr hp hcd hcur
    have hncur : ¬ j.currentIndex < j.emailList.length := by omega
    refine ⟨{ j with isRunning := false, endTime := some now }, ?_, rfl, rfl,
      hp, hruc a j hj hr hp⟩
    simp [tickMap, hj, tickJob, hr, hp, hcd, hncur]

/-- Witness for C4 (amended): in the reachable map obtained by starting one
job, the running unpaused job has `pausedAt = null`, and stopping it leaves
`paused = false`, `pausedAt = null`. -/
theorem c4_amended_stop_and_finish_clear_pause_witness :
    ((startJob "A" "Acme" "key" "a@x.com" 0 none 5 emptyMap) "A").map
      (fun j => j.pauseTime) = some none
    ∧ (stopJob "A" 9 (startJob "A" "Acme" "key" "a@x.com" 0 none 5 emptyMap)
        "A").map (fun j => (j.isPaused, j.pauseTime)) = some (false, none) := by
  have hreach : Reachable (startJob "A" "Acme" "key" "a@x.com" 0 none 5 emptyMap) :=
    Reachable.start "A" "Acme" "key" "a@x.com" 0 none 5 Reachable.empty
  have h := c4_amended_stop_and_finish_clear_pause _ hreach
  have hj : (startJob "A" "Acme" "key" "a@x.com" 0 none 5 emptyMap) "A" =
      some (freshJob "A" "Acme" "key" ["a@x.com"] 0 none 5) := by decide
  constructor
  · rw [hj, Option.map_some']
    rw [h.1 "A" _ hj rfl rfl]
  · cases hs : stopJob "A" 9 (startJob "A" "Acme" "key" "a@x.com" 0 none 5 emptyMap) "A" with
    | none =>
      simp [stopJob, hj, updateMap] at hs
    | some j' =>
      rcases h.2.1 "A" 9 j' hs with ⟨hp, hpt⟩
      rw [Option.map_some', hp, hpt]

/-! ## Iterated-tick lemmas for the completion claim -/

theorem runTicks_add (now : Int) (a b : Nat) (j : Job) :
    runTicks now (a + b) j =
      ((runTicks now b (runTicks now a j).1).1,
       (runTicks now a j).2 + (runTicks now b (runTicks now a j).1).2) := by
  induction a generalizing j with
  | zero => simp [runTicks]
  | succ a ih =>
    have h1 : a + 1 + b = (a + b) + 1 := by omega
    rw [h1]
    simp only [runTicks]
    rw [ih]
    simp [Nat.add_assoc]

theorem runTicks_countdown (now : Int) (k : Nat) :
    ∀ j : Job, j.isRunning = true → j.isPaused = false → j.countdown = k →
    runTicks now k j = ({ j with countdown := 0 }, 0) := by
  induction k with
  | zero =>
    intro j hr hp hcd
    obtain ⟨jid, jn, jk, jel, jtg, jrs, jci, jir, jip, jd, jcd, jst, jet, jpt, jtp⟩ := j
    have hcd' : jcd = 0 := hcd
    subst hcd'
    rfl
  | succ k ih =>
    intro j hr hp hcd
    have hpos : 0 < j.countdown := by omega
    have hstep : tickJob now j = ({ j with countdown := j.countdown - 1 }, none) := by
      simp [tickJob, hr, hp, hpos]
    have hih : runTicks now k { j with countdown := j.countdown - 1 } =
        ({ j with countdown := 0 }, 0) :=
      ih _ hr hp (by show j.countdown - 1 = k; omega)
    simp only [runTicks, hstep]
    simp [hih]

/-- C3: the tick that finds a running, unpaused job with exhausted
countdown and `cursor = len(queue)` sets `running := false` and
`finishedAt := now`, dispatching nothing; once `running = false`, further
ticks change nothing and dispatch nothing; and a running, unpaused job
with countdown 0 and `N` remaining queue entries reaches
`running = false`, `finishedAt ≠ null`, `cursor = len(queue)` after
exactly `N` dispatch-ticks (the second component counts dispatches; the
`N * (delay + 1) + 1` total ticks include the interleaved delay-countdown
ticks and the final finish-detection tick). -/
theorem c3_finish_after_exactly_n_dispatches (now : Int) :
    (∀ j : Job, j.isRunning = true → j.isPaused = false → j.countdown = 0 →
      j.currentIndex = j.emailList.length →
      tickJob now j = ({ j with isRunning := false, endTime := some now }, none))
    ∧ (∀ (n : Nat) (j : Job), j.isRunning = false → runTicks now n j = (j, 0))
    ∧ (∀ (N : Nat) (j : Job), j.isRunning = true → j.isPaused = false →
        j.countdown = 0 → j.emailList.length = j.currentIndex + N →
        runTicks now (N * (j.delay + 1) + 1) j =
          ({ j with currentIndex := j.currentIndex + N,
                    isRunning := false, endTime := some now }, N)) := by
  have hfinish : ∀ j : Job, j.isRunning = true → j.isPaused = false →
      j.countdown = 0 → ¬ j.currentIndex < j.emailList.length →
      tickJob now j = ({ j with isRunning := false, endTime := some now }, none) := by
    intro j hr hp hcd hncur
    simp [tickJob, hr, hp, hcd, hncur]
  refine ⟨?_, ?_, ?_⟩
  · intro j hr hp hcd hcur
    exact hfinish j hr hp hcd (by omega)
  · intro n
    induction n with
    | zero => intro j _; rfl
    | succ n ih =>
      intro j hr
      have hstep : tickJob now j = (j, none) := by
        simp [tickJob, hr]
      simp only [runTicks, hstep]
      simp [ih j hr]
  · intro N
    induction N with
    | zero =>
      intro j hr hp hcd hlen
      have hncur : ¬ j.currentIndex < j.emailList.length := by omega
      have h1 : runTicks now 1 j =
          ({ j with isRunning := false, endTime := some now }, 0) := by
        simp only [runTicks, hfinish j hr hp hcd hncur]
        rfl
      simpa using h1
    | succ N ih =>
      intro j hr hp hcd hlen
      have hcur : j.currentIndex < j.emailList.length := by omega
      have hsplit : (N + 1) * (j.delay + 1) + 1 =
          1 + (j.delay + (N * (j.delay + 1) + 1)) := by ring
      have h1 : runTicks now 1 j =
          ({ j with currentIndex := j.currentIndex + 1, countdown := j.delay }, 1) := by
        have hstep : tickJob now j =
            ({ j with currentIndex := j.currentIndex + 1, countdown := j.delay },
             some (j.emailList.getD j.currentIndex "")) := by
          simp [tickJob, hr, hp, hcd, hcur]
        simp only [runTicks, hstep]
        rfl
      have h2 : runTicks now j.delay
          { j with currentIndex := j.currentIndex + 1, countdown := j.delay } =
          ({ j with currentIndex := j.currentIndex + 1, countdown := 0 }, 0) :=
        runTicks_countdown now j.delay _ hr hp rfl
      have h3 : runTicks now (N * (j.delay + 1) + 1)
          { j with currentIndex := j.currentIndex + 1, countdown := 0 } =
          ({ j with currentIndex := j.currentIndex + 1 + N, countdown := 0,
                    isRunning := false, endTime := some now }, N) :=
        ih { j with currentIndex := j.currentIndex + 1, countdown := 0 }
          hr hp rfl (by show j.emailList.length = j.currentIndex + 1 + N; omega)
      rw [hsplit, runTicks_add, h1, runTicks_add, h2, h3]
      have harith : j.currentIndex + 1 + N = j.currentIndex + (N + 1) := by omega
      congr 1
      · dsimp only
        rw [harith, ← hcd]
      · dsimp only
        omega

/-- Witness for C3: a fresh one-address job with delay 2 finishes after
`1 * (2 + 1) + 1 = 4` ticks with exactly one dispatch, cursor 1,
`running = false` and `finishedAt` set; the finish-detecting tick itself
and the stability of a non-running job are also instantiated. -/
theorem c3_finish_after_exactly_n_dispatches_witness :
    tickJob 50
      { id := "A", name := "Acme", apiKey := "key",
        emailList := ["a@x.com"], tagId := none, results := [],
        currentIndex := 1, isRunning := true, isPaused := false,
        delay := 2, countdown := 0, startTime := some 10,
        endTime := none, pauseTime := none, totalPausedTime := 0 } =
      ({ id := "A", name := "Acme", apiKey := "key",
         emailList := ["a@x.com"], tagId := none, results := [],
         currentIndex := 1, isRunning := false, isPaused := false,
         delay := 2, countdown := 0, startTime := some 10,
         endTime := some 50, pauseTime := none, totalPausedTime := 0 }, none)
    ∧ runTicks 50 3
      { id := "A", name := "Acme", apiKey := "key",
        emailList := ["a@x.com"], tagId := none, results := [],
        currentIndex := 1, isRunning := false, isPaused := false,
        delay := 2, countdown := 0, startTime := some 10,
        endTime := some 50, pauseTime := none, totalPausedTime := 0 } =
      ({ id := "A", name := "Acme", apiKey := "key",
         emailList := ["a@x.com"], tagId := none, results := [],
         currentIndex := 1, isRunning := false, isPaused := false,
         delay := 2, countdown := 0, startTime := some 10,
         endTime := some 50, pauseTime := none, totalPausedTime := 0 }, 0)
    ∧ runTicks 50 4 (freshJob "A" "Acme" "key" ["a@x.com"] 2 none 10) =
      ({ id := "A", name := "Acme", apiKey := "key",
         emailList := ["a@x.com"], tagId := none, results := [],
         currentIndex := 1, isRunning := false, isPaused := false,
         delay := 2, countdown := 0, startTime := some 10,
         endTime := some 50, pauseTime := none, totalPausedTime := 0 }, 1) := by
  refine ⟨?_, ?_, ?_⟩
  · have h := (c3_finish_after_exactly_n_dispatches 50).1
      { id := "A", name := "Acme", apiKey := "key",
        emailList := ["a@x.com"], tagId := none, results := [],
        currentIndex := 1, isRunning := true, isPaused := false,
        delay := 2, countdown := 0, startTime := some 10,
        endTime := none, pauseTime := none, totalPausedTime := 0 }
      rfl rfl rfl (by decide)
    rw [h]
  · exact (c3_finish_after_exactly_n_dispatches 50).2.1 3 _ rfl
  · have h := (c3_finish_after_exactly_n_dispatches 50).2.2 1
      (freshJob "A" "Acme" "key" ["a@x.com"] 2 none 10)
      rfl rfl rfl (by decide)
    exact h

end Mailpot
